import Mathlib

/-
  Verification development for the icecast-kh streaming core.

  Shallow embedding of the relevant parts of src/format_mp3.c and
  src/slave.c.  Machine integers are modelled as Int / Nat (no overflow is
  reachable at the sizes involved, noted where relevant), byte buffers as
  List Nat, C strings as String or List Nat of byte values.  Each section
  names the C function it embeds.
-/

/- ===================================================================
   Section: relays_connecting counter (slave.c, relay_startup and
   start_relay_stream).

   relay_startup (slave.c:1522-1537) runs under relay_start_lock:
     if (relays_connecting > 3) { reschedule; return; }
     relays_connecting++;
   start_relay_stream (slave.c:549-551) runs under the same lock:
     relays_connecting--;
   The spinlock makes each event atomic, so the concurrent history is a
   sequence of these two events applied to the shared counter.
   =================================================================== -/

/-- The two atomic events touching `relays_connecting`. -/
inductive RelayEvent
  | startupAttempt
  | finishStart
deriving DecidableEq

/-- Effect of one atomic event on `relays_connecting`
(slave.c:1523-1533 and 549-551). -/
def relaysConnectingStep (n : Int) : RelayEvent → Int
  | RelayEvent.startupAttempt => if n > 3 then n else n + 1
  | RelayEvent.finishStart => n - 1

/-- Counter value after a history of events, starting from the
initial value 0 set in slave_initialize (slave.c:193). -/
def relaysConnectingRun (events : List RelayEvent) : Int :=
  events.foldl relaysConnectingStep 0

theorem relaysConnecting_foldl_le_four (events : List RelayEvent) :
    ∀ n : Int, n ≤ 4 → events.foldl relaysConnectingStep n ≤ 4 := by
  induction events with
  | nil => intro n h; simpa using h
  | cons e rest ih =>
    intro n h
    cases e with
    | startupAttempt =>
      simp only [List.foldl_cons, relaysConnectingStep]
      by_cases hgt : n > 3
      · simpa [hgt] using ih n h
      · simpa [hgt] using ih (n + 1) (by omega)
    | finishStart =>
      simp only [List.foldl_cons, relaysConnectingStep]
      exact ih (n - 1) (by omega)

/-- C3 counterexample: four concurrent startup attempts from the initial
state drive `relays_connecting` to 4, exceeding 3: the guard in
relay_startup is `relays_connecting > 3`, which still admits an increment
when the counter is exactly 3. -/
theorem C3_counterexample :
    relaysConnectingRun
      [RelayEvent.startupAttempt, RelayEvent.startupAttempt,
       RelayEvent.startupAttempt, RelayEvent.startupAttempt] = 4 ∧
    ¬ (relaysConnectingRun
      [RelayEvent.startupAttempt, RelayEvent.startupAttempt,
       RelayEvent.startupAttempt, RelayEvent.startupAttempt] ≤ 3) := by
  constructor
  · rfl
  · decide

/-- C3 (amended): the number of relays simultaneously in the
Startup-to-Connected transition never exceeds 4: over every history of
atomic startup-increments and completion-decrements of
`relays_connecting` starting from 0, the counter stays at most 4
(the guard `relays_connecting > 3` admits a fourth concurrent open). -/
theorem C3_relays_connecting_cap (events : List RelayEvent) :
    relaysConnectingRun events ≤ 4 :=
  relaysConnecting_foldl_le_four events 0 (by omega)

/- ===================================================================
   Section: redirector list (slave.c, redirect_client, redirector_update,
   redirector_add, find_slave_host).
   =================================================================== -/

/-- redirect_host entry (slave.h): server, port, next_update. -/
structure RedirectHost where
  server : String
  port : Int
  next_update : Int
deriving DecidableEq

/-- The expiry test applied by redirect_client (slave.c:235):
`checking->next_update && checking->next_update+10 < time(NULL)`.
Entries whose next_update is 0 (added with interval 0) are never expired. -/
def redirectExpired (now : Int) (h : RedirectHost) : Bool :=
  (h.next_update != 0) && decide (h.next_update + 10 < now)

/-- The scan loop of redirect_client (slave.c:232-277).  Walks the
redirectors list with the countdown `which`; expired entries are unlinked
(decrementing global.redirect_count, and `which` while it is positive),
and the entry on which `--which` reaches 0 is chosen as the 302 target.
Returns (surviving list, chosen entry, number of entries removed). -/
def redirectClientScan (now : Int) :
    List RedirectHost → Int → List RedirectHost × Option RedirectHost × Nat
  | [], _ => ([], none, 0)
  | h :: rest, which =>
    if redirectExpired now h then
      let r := redirectClientScan now rest (if which > 0 then which - 1 else which)
      (r.1, r.2.1, r.2.2 + 1)
    else
      let w := which - 1
      let r := redirectClientScan now rest w
      (h :: r.1, if w = 0 then some h else r.2.1, r.2.2)

/-- C9 counterexample: a redirect host with `next_update = 0` at time 100
satisfies the claim's expiry condition (next_update + 10 < now), yet
redirect_client keeps it in the list and selects it as the redirect
destination, because the code additionally requires `next_update` to be
nonzero before expiring an entry. -/
theorem C9_counterexample :
    ((0 : Int) + 10 < 100) ∧
    redirectClientScan 100 [⟨"peer", 8000, 0⟩] 1 =
      ([⟨"peer", 8000, 0⟩], some ⟨"peer", 8000, 0⟩, 0) := by
  exact ⟨by decide, rfl⟩

theorem redirectClientScan_spec (now : Int) (l : List RedirectHost) :
    ∀ which : Int,
      (redirectClientScan now l which).1 =
        l.filter (fun h => ! redirectExpired now h) ∧
      (redirectClientScan now l which).2.2 =
        l.countP (fun h => redirectExpired now h) ∧
      ∀ h, (redirectClientScan now l which).2.1 = some h →
        redirectExpired now h = false := by
  induction l with
  | nil =>
    intro which
    refine ⟨rfl, rfl, ?_⟩
    intro h hsel
    simp [redirectClientScan] at hsel
  | cons x rest ih =>
    intro which
    by_cases hx : redirectExpired now x
    · have hrec := ih (if which > 0 then which - 1 else which)
      refine ⟨?_, ?_, ?_⟩
      · simp [redirectClientScan, hx, hrec.1]
      · simp [redirectClientScan, hx, hrec.2.1]
      · intro h hsel
        simp only [redirectClientScan, hx, if_true] at hsel
        exact hrec.2.2 h hsel
    · have hrec := ih (which - 1)
      refine ⟨?_, ?_, ?_⟩
      · simp [redirectClientScan, hx, hrec.1]
      · simp [redirectClientScan, hx, hrec.2.1]
      · intro h hsel
        simp only [redirectClientScan, hx, if_false, Bool.false_eq_true] at hsel
        by_cases hw : which - 1 = 0
        · simp only [hw, if_pos rfl] at hsel
          cases hsel
          simpa using hx
        · simp only [if_neg hw] at hsel
          exact hrec.2.2 h hsel

/-- C9 (amended): on every lookup, redirect_client removes from the
redirectors list exactly those hosts with a nonzero `next_update` whose
`next_update + 10` is before the current time (decrementing
global.redirect_count once per removal), and the chosen redirect
destination is never such an expired host.  Hosts with `next_update = 0`
(configured redirectors, added with interval 0) are permanent and are
not subject to expiry. -/
theorem C9_redirect_expiry (now : Int) (l : List RedirectHost) (which : Int) :
    (redirectClientScan now l which).1 =
      l.filter (fun h => ! redirectExpired now h) ∧
    (redirectClientScan now l which).2.2 =
      l.countP (fun h => redirectExpired now h) ∧
    ∀ h, (redirectClientScan now l which).2.1 = some h →
      redirectExpired now h = false :=
  redirectClientScan_spec now l which

/-- Witness for C9: at time 100 with one live host (next_update 95) and
countdown 1, the scan selects that host and the theorem confirms the
selected host is not expired. -/
theorem C9_redirect_expiry_witness :
    redirectExpired 100 ⟨"a", 1, 95⟩ = false :=
  (C9_redirect_expiry 100 [⟨"a", 1, 95⟩] 1).2.2 ⟨"a", 1, 95⟩ rfl

/- ===================================================================
   Section: parse_icy_metadata (format_mp3.c:176-225) and the inline
   metadata filter mp3_get_filter_meta (format_mp3.c:788-887).

   Byte buffers are List Nat of byte values.  build_metadata is the
   memset-zeroed 4081-byte staging array; its content is the copied
   bytes followed by zeros, so reads use getD with default 0.  The
   memcmp against the current metadata RefBuf is likewise modelled with
   zero-defaulted reads.
   =================================================================== -/

/-- "StreamTitle='" as bytes (13). -/
def streamTitleTag : List Nat :=
  [83, 116, 114, 101, 97, 109, 84, 105, 116, 108, 101, 61, 39]

/-- "StreamUrl='" as bytes (11). -/
def streamUrlTag : List Nat :=
  [83, 116, 114, 101, 97, 109, 85, 114, 108, 61, 39]

/-- The token terminator "';" as bytes. -/
def endQuoteTag : List Nat := [39, 59]

/-- memcmp(a, b, n) == 0 over zero-defaulted byte lists. -/
def memcmpEq (a b : List Nat) (n : Nat) : Bool :=
  (List.range n).all (fun i => a.getD i 0 == b.getD i 0)

/-- Index of the first occurrence of `needle` as a contiguous run. -/
def findSub (needle : List Nat) : List Nat → Option Nat
  | [] => none
  | c :: rest =>
    if List.isPrefixOf needle (c :: rest) then some 0
    else
      match findSub needle rest with
      | some i => some (i + 1)
      | none => none

/-- strstr on a NUL-terminated byte buffer: the match must lie before
the first zero byte. -/
def cStrstr (hay needle : List Nat) : Option Nat :=
  findSub needle (hay.takeWhile (fun b => b != 0))

/-- strchr on a NUL-terminated byte buffer. -/
def cStrchr (hay : List Nat) (c : Nat) : Option Nat :=
  (hay.takeWhile (fun b => b != 0)).findIdx? (fun b => b == c)

/-- The mp3_state fields parse_icy_metadata reads and writes: the
current metadata RefBuf bytes, the owned tag strings and the
update_metadata flag. -/
structure ParseState where
  metadata : List Nat
  url_title : Option (List Nat)
  inline_url : Option (List Nat)
  update_metadata : Nat
deriving DecidableEq

/-- The do-while token loop of parse_icy_metadata (format_mp3.c:190-223)
over the staging buffer past the length byte; `buf.length` plays
meta_len.  A StreamTitle-quoted value ending in "';" becomes url_title,
a StreamUrl value becomes inline_url, any other token is skipped at its
';'; a missing terminator breaks out.  Every completed token sets
update_metadata. -/
def parseTokens (st : ParseState) (buf : List Nat) : ParseState :=
  if memcmpEq buf streamTitleTag 13 then
    match cStrstr (buf.drop 13) endQuoteTag with
    | none => st
    | some i =>
      let st2 : ParseState :=
        { st with url_title := some ((buf.drop 13).take i), update_metadata := 1 }
      if h : 0 < buf.length - (13 + i + 2) then
        parseTokens st2 (buf.drop (13 + i + 2))
      else st2
  else if memcmpEq buf streamUrlTag 11 then
    match cStrstr (buf.drop 11) endQuoteTag with
    | none => st
    | some i =>
      let st2 : ParseState :=
        { st with inline_url := some ((buf.drop 11).take i), update_metadata := 1 }
      if h : 0 < buf.length - (11 + i + 2) then
        parseTokens st2 (buf.drop (11 + i + 2))
      else st2
  else
    match cStrchr buf 59 with
    | none => st
    | some i =>
      let st2 : ParseState := { st with update_metadata := 1 }
      if h : 0 < buf.length - (i + 1) then
        parseTokens st2 (buf.drop (i + 1))
      else st2
termination_by buf.length
decreasing_by
  all_goals simp only [List.length_drop]
  all_goals omega

/-- parse_icy_metadata (format_mp3.c:176-225).  `buildData` is what the
filter copied into build_metadata (the block minus its final byte),
`metaLen` is build_metadata_len.  A block of length at most 1, or one
memcmp-equal to the current metadata, is a no-op returning 0; then a
received length outside 16..4081 or a mismatched declared length is
rejected with -1; otherwise the token loop runs over the zero-padded
bytes past the length byte and the call returns 0. -/
def parse_icy_metadata (st : ParseState) (buildData : List Nat)
    (metaLen : Nat) : Int × ParseState :=
  if metaLen ≤ 1 ∨ memcmpEq buildData st.metadata metaLen = true then (0, st)
  else if metaLen < 16 ∨ 4081 < metaLen then (-1, st)
  else if buildData.getD 0 0 * 16 + 1 ≠ metaLen then (-1, st)
  else
    (0, parseTokens st
      ((List.range (metaLen - 1)).map (fun i => buildData.getD (i + 1) 0)))

/-- The per-mount filter state of mp3_get_filter_meta: payload bytes
since the last inline block, the staging buffer bookkeeping, and the
parse-visible mp3_state. -/
structure FilterState where
  offset : Nat
  buildLen : Nat
  buildOff : Nat
  buildData : List Nat
  parse : ParseState
deriving DecidableEq

/-- The while-loop of mp3_get_filter_meta (format_mp3.c:808-869) over
one completed read of `src` bytes; `acc` is the audio retained in the
block so far (refbuf->len).  Payload is passed through up to the
announced interval; at the boundary a block is staged (its first byte
declaring the length 1 + 16·L), completed blocks are copied minus their
final byte, parsed when longer than a bare length byte, and excised,
resetting offset and build_metadata_len.  A parse failure releases the
block and shuts the source down (modelled as none). -/
def mp3FilterChunk (I : Nat) (hI : 0 < I) (st : FilterState)
    (src acc : List Nat) : Option (List Nat × FilterState) :=
  if hsrc : src = [] then some (acc, st)
  else
    if hall : src.length ≤ I - st.offset then
      some (acc ++ src, { st with offset := st.offset + src.length })
    else if hmb : 0 < I - st.offset then
      mp3FilterChunk I hI { st with offset := st.offset + (I - st.offset) }
        (src.drop (I - st.offset)) (acc ++ src.take (I - st.offset))
    else
      let st1 :=
        if st.buildLen = 0 then
          { st with buildData := [], buildOff := 0, buildLen := 1 + src.headD 0 * 16 }
        else st
      let rem := st1.buildLen - st1.buildOff
      if hpart : src.length < rem then
        some (acc, { st1 with buildData := st1.buildData ++ src, buildOff := st1.buildOff + src.length })
      else
        let st2 := { st1 with buildData := st1.buildData ++ src.take (rem - 1) }
        if 1 < st2.buildLen then
          if (parse_icy_metadata st2.parse st2.buildData st2.buildLen).1 < 0 then
            none
          else
            mp3FilterChunk I hI
              { st2 with offset := 0, buildLen := 0, buildOff := 0, parse := (parse_icy_metadata st2.parse st2.buildData st2.buildLen).2 }
              (src.drop rem) acc
        else
          mp3FilterChunk I hI
            { st2 with offset := 0, buildLen := 0, buildOff := 0 }
            (src.drop rem) acc
termination_by 2 * src.length + (if I ≤ st.offset then 1 else 0)
decreasing_by
  · have h1 : (if I ≤ st.offset + (I - st.offset) then 1 else 0) ≤ 1 := by
      split <;> omega
    simp only [List.length_drop]
    omega
  · have h0 : (if I ≤ st.offset then 1 else 0) = 1 := if_pos (by omega)
    have h1 : (if I ≤ (0 : Nat) then 1 else 0) = 0 := if_neg (by omega)
    simp only [List.length_drop, h0, h1]
    omega
  · have h0 : (if I ≤ st.offset then 1 else 0) = 1 := if_pos (by omega)
    have h1 : (if I ≤ (0 : Nat) then 1 else 0) = 0 := if_neg (by omega)
    simp only [List.length_drop, h0, h1]
    omega

/-- The initial 17-byte metadata "\001StreamTitle='';" installed by
format_mp3_get_plugin (format_mp3.c:104-106). -/
def blankIcyMeta : List Nat :=
  [1, 83, 116, 114, 101, 97, 109, 84, 105, 116, 108, 101, 61, 39, 39, 59, 0]

/-- C7 counterexample: a 2-byte block (received length 2, outside
16..4081 and with no matching declared length) whose bytes equal the
first two bytes of the current metadata is accepted as a no-op
(returns 0), because parse_icy_metadata runs the equal-to-previous
memcmp before any length validation; the claim's unconditional
rejection clause fails on it. -/
theorem C7_counterexample :
    ((2 : Nat) < 16 ∧ ¬ ((2 : Nat) ≤ 1)) ∧
    parse_icy_metadata ⟨blankIcyMeta, none, none, 0⟩ [1, 83] 2 =
      (0, ⟨blankIcyMeta, none, none, 0⟩) :=
  ⟨by decide, by decide⟩

/-- C7 (amended): parse_icy_metadata treats a block of length at most 1,
or one memcmp-equal to the current metadata over its length, as a no-op
returning 0 with the state untouched — this check runs first, even for
malformed blocks; only a block that is not such a no-op is rejected
with -1 (shutting the source down) when its received length lies
outside 16..4081 or its declared length 16·L+1 differs from the
received length, again leaving the state untouched. -/
theorem C7_parse_icy_validation (st : ParseState) (buildData : List Nat)
    (metaLen : Nat) :
    ((metaLen ≤ 1 ∨ memcmpEq buildData st.metadata metaLen = true) →
      parse_icy_metadata st buildData metaLen = (0, st)) ∧
    (¬ (metaLen ≤ 1 ∨ memcmpEq buildData st.metadata metaLen = true) →
      (metaLen < 16 ∨ 4081 < metaLen ∨ buildData.getD 0 0 * 16 + 1 ≠ metaLen) →
      parse_icy_metadata st buildData metaLen = (-1, st)) := by
  constructor
  · intro h
    unfold parse_icy_metadata
    rw [if_pos h]
  · intro hno hbad
    unfold parse_icy_metadata
    rw [if_neg hno]
    by_cases hlen : metaLen < 16 ∨ 4081 < metaLen
    · rw [if_pos hlen]
    · rcases hbad with h | h | h
      · exact absurd (Or.inl h) hlen
      · exact absurd (Or.inr h) hlen
      · rw [if_neg hlen, if_pos h]

/-- Witness for C7: a block declaring L = 2 (so 33 bytes) but received
with length 17, differing from the current metadata, is rejected
with -1 and the state is unchanged. -/
theorem C7_parse_icy_validation_witness :
    parse_icy_metadata ⟨blankIcyMeta, none, none, 0⟩ [2, 99] 17 =
      (-1, ⟨blankIcyMeta, none, none, 0⟩) :=
  (C7_parse_icy_validation ⟨blankIcyMeta, none, none, 0⟩ [2, 99] 17).2
    (by decide) (by decide)

/-- An ICY source stream: after every `I` payload bytes the upstream
inserts the next inline block (first byte L, 1 + 16·L bytes total);
after the last announced boundary the payload tail runs out. -/
def interleaveIcy (I : Nat) : List Nat → List (List Nat) → List Nat
  | payload, [] => payload
  | payload, b :: bs =>
    if payload.length ≤ I then payload
    else payload.take I ++ (b ++ interleaveIcy I (payload.drop I) bs)

theorem mp3FilterChunk_nil (I : Nat) (hI : 0 < I) (st : FilterState)
    (acc : List Nat) : mp3FilterChunk I hI st [] acc = some (acc, st) := by
  rw [mp3FilterChunk, dif_pos rfl]

theorem mp3FilterChunk_allAudio (I : Nat) (hI : 0 < I) (st : FilterState)
    (src acc : List Nat) (hsrc : src ≠ [])
    (hall : src.length ≤ I - st.offset) :
    mp3FilterChunk I hI st src acc =
      some (acc ++ src, { st with offset := st.offset + src.length }) := by
  conv_lhs => rw [mp3FilterChunk]
  rw [dif_neg hsrc, dif_pos hall]

theorem mp3FilterChunk_audioStep (I : Nat) (hI : 0 < I) (st : FilterState)
    (src acc : List Nat) (hsrc : src ≠ [])
    (hall : ¬ src.length ≤ I - st.offset) (hmb : 0 < I - st.offset) :
    mp3FilterChunk I hI st src acc =
      mp3FilterChunk I hI { st with offset := st.offset + (I - st.offset) }
        (src.drop (I - st.offset)) (acc ++ src.take (I - st.offset)) := by
  conv_lhs => rw [mp3FilterChunk]
  rw [dif_neg hsrc, dif_neg hall, dif_pos hmb]

theorem mp3FilterChunk_audioStart (I : Nat) (hI : 0 < I) (bd : List Nat)
    (p : ParseState) (src acc : List Nat) (hsrc : src ≠ [])
    (hall : ¬ src.length ≤ I) :
    mp3FilterChunk I hI ⟨0, 0, 0, bd, p⟩ src acc =
      mp3FilterChunk I hI ⟨I, 0, 0, bd, p⟩ (src.drop I) (acc ++ src.take I) := by
  have h := mp3FilterChunk_audioStep I hI ⟨0, 0, 0, bd, p⟩ src acc hsrc
    (by simpa using hall) (by simpa using hI)
  simpa using h

theorem headD_append_of_ne_nil {b : List Nat} (r : List Nat) (hb : b ≠ [])
    (d : Nat) : (b ++ r).headD d = b.headD d := by
  cases b with
  | nil => exact absurd rfl hb
  | cons x xs => rfl

theorem getD_zero_take (l : List Nat) (n : Nat) (hn : 0 < n) :
    (l.take n).getD 0 0 = l.getD 0 0 := by
  cases l with
  | nil => simp
  | cons x xs =>
    cases n with
    | zero => omega
    | succ m => rfl

theorem getD_zero_eq_headD (l : List Nat) : l.getD 0 0 = l.headD 0 := by
  cases l <;> rfl

theorem take_append_of_length (A B : List Nat) (n : Nat) (hA : A.length = n) :
    (A ++ B).take n = A := by
  rw [← hA]
  exact List.take_left A B

theorem drop_append_of_length (A B : List Nat) (n : Nat) (hA : A.length = n) :
    (A ++ B).drop n = B := by
  rw [← hA]
  exact List.drop_left A B

/-- A completed inline block staged from a fresh boundary state: the
filter stages 1 + 16·L bytes, copies all but the final byte, parses
(here: successfully) and continues past the block with offset and
build_metadata_len reset. -/
theorem mp3FilterChunk_metaComplete (I : Nat) (hI : 0 < I) (off : Nat)
    (bd : List Nat) (p : ParseState) (src acc : List Nat)
    (hsrc : src ≠ []) (hoff : I ≤ off) (hL : 0 < src.headD 0)
    (hfull : 1 + src.headD 0 * 16 ≤ src.length)
    (hparse : ¬ (parse_icy_metadata p (src.take (1 + src.headD 0 * 16 - 1))
        (1 + src.headD 0 * 16)).1 < 0) :
    mp3FilterChunk I hI ⟨off, 0, 0, bd, p⟩ src acc =
      mp3FilterChunk I hI
        ⟨0, 0, 0, src.take (1 + src.headD 0 * 16 - 1),
          (parse_icy_metadata p (src.take (1 + src.headD 0 * 16 - 1))
            (1 + src.headD 0 * 16)).2⟩
        (src.drop (1 + src.headD 0 * 16)) acc := by
  have hpos : 0 < src.length := List.length_pos.mpr hsrc
  conv_lhs => rw [mp3FilterChunk]
  rw [dif_neg hsrc]
  rw [dif_neg (show ¬ src.length ≤ I - (⟨off, 0, 0, bd, p⟩ : FilterState).offset
    by dsimp only; omega)]
  rw [dif_neg (show ¬ 0 < I - (⟨off, 0, 0, bd, p⟩ : FilterState).offset
    by dsimp only; omega)]
  dsimp only
  rw [if_pos rfl]
  dsimp only
  rw [dif_neg (show ¬ src.length < 1 + src.headD 0 * 16 - 0 by omega)]
  rw [if_pos (show (1 : Nat) < 1 + src.headD 0 * 16 by omega)]
  simp only [List.nil_append, Nat.sub_zero]
  rw [if_neg hparse]

/-- A completed zero-length inline block (L = 0, "no change"): the
single length byte is excised and no parse runs. -/
theorem mp3FilterChunk_metaL0 (I : Nat) (hI : 0 < I) (off : Nat)
    (bd : List Nat) (p : ParseState) (src acc : List Nat)
    (hsrc : src ≠ []) (hoff : I ≤ off) (hL : src.headD 0 = 0) :
    mp3FilterChunk I hI ⟨off, 0, 0, bd, p⟩ src acc =
      mp3FilterChunk I hI ⟨0, 0, 0, [], p⟩ (src.drop 1) acc := by
  have hpos : 0 < src.length := List.length_pos.mpr hsrc
  conv_lhs => rw [mp3FilterChunk]
  rw [dif_neg hsrc]
  rw [dif_neg (show ¬ src.length ≤ I - (⟨off, 0, 0, bd, p⟩ : FilterState).offset
    by dsimp only; omega)]
  rw [dif_neg (show ¬ 0 < I - (⟨off, 0, 0, bd, p⟩ : FilterState).offset
    by dsimp only; omega)]
  dsimp only
  rw [if_pos rfl]
  dsimp only
  rw [hL]
  rw [dif_neg (show ¬ src.length < 1 + 0 * 16 - 0 by omega)]
  rw [if_neg (show ¬ (1 : Nat) < 1 + 0 * 16 by omega)]
  simp

theorem mp3FilterChunk_shortPayload (I : Nat) (hI : 0 < I) (bd : List Nat)
    (p : ParseState) (payload acc : List Nat) (hlen : payload.length ≤ I) :
    ∃ st2 : FilterState,
      mp3FilterChunk I hI ⟨0, 0, 0, bd, p⟩ payload acc =
        some (acc ++ payload, st2) ∧ st2.buildLen = 0 := by
  by_cases hp : payload = []
  · subst hp
    exact ⟨⟨0, 0, 0, bd, p⟩, by rw [mp3FilterChunk_nil]; simp, rfl⟩
  · refine ⟨⟨0 + payload.length, 0, 0, bd, p⟩, ?_, rfl⟩
    rw [mp3FilterChunk_allAudio I hI _ payload acc hp (by simpa using hlen)]

theorem parse_wellformed_block_ok (p : ParseState) (bd : List Nat) (L : Nat)
    (hL1 : 1 ≤ L) (hL255 : L ≤ 255) (hbd0 : bd.getD 0 0 = L) :
    ¬ (parse_icy_metadata p bd (1 + L * 16)).1 < 0 := by
  unfold parse_icy_metadata
  by_cases h1 : (1 + L * 16 ≤ 1 ∨ memcmpEq bd p.metadata (1 + L * 16) = true)
  · rw [if_pos h1]
    simp
  · rw [if_neg h1,
      if_neg (show ¬ (1 + L * 16 < 16 ∨ 4081 < 1 + L * 16) by omega),
      if_neg (show ¬ (bd.getD 0 0 * 16 + 1 ≠ 1 + L * 16) by rw [hbd0]; omega)]
    simp

theorem mp3FilterChunk_roundtrip (I : Nat) (hI : 0 < I)
    (blocks : List (List Nat)) :
    ∀ (payload acc bd : List Nat) (p : ParseState),
      (∀ b ∈ blocks, b ≠ [] ∧ b.length = 1 + b.headD 0 * 16 ∧ b.headD 0 ≤ 255) →
      payload.length ≤ I * blocks.length + I →
      ∃ st2 : FilterState,
        mp3FilterChunk I hI ⟨0, 0, 0, bd, p⟩ (interleaveIcy I payload blocks) acc =
          some (acc ++ payload, st2) ∧ st2.buildLen = 0 := by
  induction blocks with
  | nil =>
    intro payload acc bd p hwf hlen
    rw [interleaveIcy]
    exact mp3FilterChunk_shortPayload I hI bd p payload acc (by simpa using hlen)
  | cons b bs ih =>
    intro payload acc bd p hwf hlen
    obtain ⟨hbne, hblen, hbmax⟩ := hwf b (List.mem_cons_self b bs)
    have hwf2 : ∀ x ∈ bs, x ≠ [] ∧ x.length = 1 + x.headD 0 * 16 ∧
        x.headD 0 ≤ 255 := fun x hx => hwf x (List.mem_cons_of_mem b hx)
    by_cases hshort : payload.length ≤ I
    · rw [interleaveIcy, if_pos hshort]
      exact mp3FilterChunk_shortPayload I hI bd p payload acc hshort
    · rw [interleaveIcy, if_neg hshort]
      have hbpos : 0 < b.length := List.length_pos.mpr hbne
      have hlenI : (payload.take I).length = I := by
        rw [List.length_take]; omega
      set rest := interleaveIcy I (payload.drop I) bs with hrest
      have hlen2 : (payload.drop I).length ≤ I * bs.length + I := by
        have hc : I * (b :: bs).length = I * bs.length + I := by
          rw [List.length_cons, Nat.mul_succ]
        rw [List.length_drop]
        omega
      -- step 1: the payload up to the boundary is passed through
      have hsne : payload.take I ++ (b ++ rest) ≠ [] := by
        intro h
        have hle := congrArg List.length h
        simp only [List.length_append, hlenI, List.length_nil] at hle
        omega
      have hslen : ¬ (payload.take I ++ (b ++ rest)).length ≤ I := by
        simp only [List.length_append, hlenI]
        omega
      rw [mp3FilterChunk_audioStart I hI bd p _ acc hsne hslen]
      rw [take_append_of_length _ _ _ hlenI, drop_append_of_length _ _ _ hlenI]
      -- step 2: the staged block at the boundary
      have hbrne : b ++ rest ≠ [] := by
        intro h
        exact hbne (List.append_eq_nil.mp h).1
      have hheadD : (b ++ rest).headD 0 = b.headD 0 :=
        headD_append_of_ne_nil rest hbne 0
      by_cases hL0 : b.headD 0 = 0
      · -- L = 0: single byte block, no parse
        have hb1 : b.length = 1 := by rw [hblen, hL0]
        rw [mp3FilterChunk_metaL0 I hI I bd p (b ++ rest) _ hbrne (le_refl I)
          (by rw [hheadD, hL0])]
        rw [drop_append_of_length _ _ _ hb1]
        obtain ⟨st2, hrec, hbuild⟩ :=
          ih (payload.drop I) (acc ++ payload.take I) [] p hwf2 hlen2
        refine ⟨st2, ?_, hbuild⟩
        rw [hrec, List.append_assoc, List.take_append_drop]
      · -- L ≥ 1: full block staged, copied minus final byte, parsed
        have hL1 : 1 ≤ b.headD 0 := Nat.one_le_iff_ne_zero.mpr hL0
        have hfull : 1 + (b ++ rest).headD 0 * 16 ≤ (b ++ rest).length := by
          rw [hheadD, List.length_append, ← hblen]
          omega
        have hbd0 : ((b ++ rest).take (1 + (b ++ rest).headD 0 * 16 - 1)).getD 0 0 =
            b.headD 0 := by
          rw [getD_zero_take _ _ (by rw [hheadD]; omega)]
          rw [getD_zero_eq_headD, hheadD]
        have hparse : ¬ (parse_icy_metadata p
            ((b ++ rest).take (1 + (b ++ rest).headD 0 * 16 - 1))
            (1 + (b ++ rest).headD 0 * 16)).1 < 0 := by
          rw [hheadD] at hbd0 ⊢
          exact parse_wellformed_block_ok p _ (b.headD 0) hL1 hbmax hbd0
        rw [mp3FilterChunk_metaComplete I hI I bd p (b ++ rest) _ hbrne
          (le_refl I) (by rw [hheadD]; omega) hfull hparse]
        have hdropb : (b ++ rest).drop (1 + (b ++ rest).headD 0 * 16) = rest := by
          rw [hheadD]
          exact drop_append_of_length _ _ _ hblen
        rw [hdropb]
        obtain ⟨st2, hrec, hbuild⟩ :=
          ih (payload.drop I) (acc ++ payload.take I) _
            (parse_icy_metadata p
              ((b ++ rest).take (1 + (b ++ rest).headD 0 * 16 - 1))
              (1 + (b ++ rest).headD 0 * 16)).2 hwf2 hlen2
        refine ⟨st2, ?_, hbuild⟩
        rw [hrec, List.append_assoc, List.take_append_drop]

/-- C2: feeding mp3_get_filter_meta's filter loop an ICY stream built by
interleaving a payload with well-formed inline blocks (each 1 + 16·L
bytes, L its first byte) at the announced period strips exactly the
metadata bytes: the audio retained equals the original payload, the
source is never shut down (every completed well-formed block parses
without error), and the final state has build_metadata_len reset to 0
after the last complete block. -/
theorem C2_inline_metadata_transparency (I : Nat) (hI : 0 < I)
    (payload : List Nat) (blocks : List (List Nat)) (p : ParseState)
    (hwf : ∀ b ∈ blocks, b ≠ [] ∧ b.length = 1 + b.headD 0 * 16 ∧
      b.headD 0 ≤ 255)
    (hlen : payload.length ≤ I * blocks.length + I) :
    ∃ st2 : FilterState,
      mp3FilterChunk I hI ⟨0, 0, 0, [], p⟩ (interleaveIcy I payload blocks) [] =
        some (payload, st2) ∧ st2.buildLen = 0 := by
  obtain ⟨st2, hrec, hbuild⟩ :=
    mp3FilterChunk_roundtrip I hI blocks payload [] [] p hwf hlen
  exact ⟨st2, by simpa using hrec, hbuild⟩

/-- Witness for C2: at interval 4, a 6-byte payload interleaved with one
L = 1 block carrying StreamTitle='A'; round-trips: the filter returns
exactly the payload bytes. -/
theorem C2_inline_metadata_transparency_witness :
    (mp3FilterChunk 4 (by decide) ⟨0, 0, 0, [], ⟨blankIcyMeta, none, none, 0⟩⟩
        (interleaveIcy 4 [10, 11, 12, 13, 14, 15]
          [[1, 83, 116, 114, 101, 97, 109, 84, 105, 116, 108, 101, 61, 39,
            65, 39, 59]]) []).map (fun r => r.1) =
      some [10, 11, 12, 13, 14, 15] := by
  obtain ⟨st2, h1, h2⟩ :=
    C2_inline_metadata_transparency 4 (by decide) [10, 11, 12, 13, 14, 15]
      [[1, 83, 116, 114, 101, 97, 109, 84, 105, 116, 108, 101, 61, 39, 65,
        39, 59]] ⟨blankIcyMeta, none, none, 0⟩ (by decide) (by decide)
  rw [h1]
  rfl

/- ===================================================================
   Section: redirector_update / redirector_add / find_slave_host
   (slave.c:1164-1237).
   =================================================================== -/

/-- isspace bytes skipped by C atoi. -/
def isSpaceChar (c : Char) : Bool :=
  c = ' ' || c = '\t' || c = '\n' || c = '\r' || c = '\x0b' || c = '\x0c'

/-- Accumulate leading decimal digits, as C atoi does after the sign. -/
def atoiDigits : List Char → Nat → Nat
  | c :: rest, acc =>
    if c.isDigit then atoiDigits rest (acc * 10 + (c.toNat - 48)) else acc
  | [], acc => acc

/-- C atoi on a character list: skip whitespace, optional sign, then
leading digits (idealized: no int overflow, which the call sites avoid). -/
def atoiChars (s : List Char) : Int :=
  match s.dropWhile isSpaceChar with
  | '-' :: rest => - (atoiDigits rest 0 : Int)
  | '+' :: rest => (atoiDigits rest 0 : Int)
  | rest => (atoiDigits rest 0 : Int)

def atoiStr (s : String) : Int :=
  atoiChars s.toList

/-- Global redirector state: the `redirectors` list and
`global.redirect_count`. -/
structure SlaveRedirectState where
  redirectors : List RedirectHost
  redirectCount : Nat
deriving DecidableEq

/-- find_slave_host (slave.c:1208-1218): first entry matching server and
port. -/
def find_slave_host (server : String) (port : Int) :
    List RedirectHost → Option RedirectHost
  | [] => none
  | h :: rest =>
    if h.server = server ∧ h.port = port then some h
    else find_slave_host server port rest

/-- redirector_add (slave.c:1221-1237): prepend a new redirect host
(next_update 0 when interval is 0, otherwise now + interval) and bump
global.redirect_count. -/
def redirector_add (now : Int) (server : String) (port interval : Int)
    (st : SlaveRedirectState) : SlaveRedirectState :=
  { redirectors :=
      ⟨server, port, if interval = 0 then 0 else now + interval⟩ :: st.redirectors,
    redirectCount := st.redirectCount + 1 }

/-- The in-place touch performed by redirector_update on an existing
entry (slave.c:1197-1198): set next_update of the first matching host. -/
def touchRedirect (server : String) (port nu : Int) :
    List RedirectHost → List RedirectHost
  | [] => []
  | h :: rest =>
    if h.server = server ∧ h.port = port then { h with next_update := nu } :: rest
    else h :: touchRedirect server port nu rest

/-- redirector_update (slave.c:1164-1201).  The three query parameters
arrive as optional strings; absent rserver/rport/interval, a non-positive
rport or an interval below 5 leave the state untouched.  Otherwise an
unknown host is added while redirect_count is below max_redirects, and a
known host only has its next_update advanced. -/
def redirector_update (now : Int) (maxRedirects : Nat)
    (rserver rport ivalue : Option String) (st : SlaveRedirectState) :
    SlaveRedirectState :=
  match rserver with
  | none => st
  | some srv =>
    match rport with
    | none => st
    | some rp =>
      let rportN := atoiStr rp
      if rportN ≤ 0 then st
      else
        match ivalue with
        | none => st
        | some iv =>
          let interval := atoiStr iv
          if interval < 5 then st
          else
            match find_slave_host srv rportN st.redirectors with
            | none =>
              if st.redirectCount < maxRedirects then
                redirector_add now srv rportN interval st
              else st
            | some _ =>
              { st with redirectors :=
                  touchRedirect srv rportN (now + interval) st.redirectors }

theorem touchRedirect_shape (server : String) (port nu : Int)
    (l : List RedirectHost) :
    (touchRedirect server port nu l).map (fun h => (h.server, h.port)) =
      l.map (fun h => (h.server, h.port)) ∧
    ∀ h ∈ touchRedirect server port nu l,
      h ∈ l ∨ (h.server = server ∧ h.port = port ∧ h.next_update = nu) := by
  induction l with
  | nil => exact ⟨rfl, by intro h hmem; simp [touchRedirect] at hmem⟩
  | cons x rest ih =>
    by_cases hx : x.server = server ∧ x.port = port
    · refine ⟨?_, ?_⟩
      · simp [touchRedirect, hx]
      · intro h hmem
        simp only [touchRedirect, if_pos hx, List.mem_cons] at hmem
        rcases hmem with hh | hh
        · exact Or.inr (by simp [hh, hx.1, hx.2])
        · exact Or.inl (List.mem_cons_of_mem x hh)
    · refine ⟨?_, ?_⟩
      · simp [touchRedirect, hx, ih.1]
      · intro h hmem
        simp only [touchRedirect, if_neg hx, List.mem_cons] at hmem
        rcases hmem with hh | hh
        · exact Or.inl (by simp [hh])
        · rcases ih.2 h hh with hin | hset
          · exact Or.inl (List.mem_cons_of_mem x hin)
          · exact Or.inr hset

/-- C10: redirector_update leaves the redirectors list and
global.redirect_count unchanged unless the request supplies rserver, an
rport parsing to a positive value and an interval of at least 5; when
they hold, an unlisted host is added (prepended, with next_update =
now + interval and the count incremented) only while redirect_count is
below max_redirects, and a listed host only has its next_update set to
now + interval (list keys and count unchanged). -/
theorem C10_redirector_update (now : Int) (maxRedirects : Nat)
    (rserver rport ivalue : Option String) (st : SlaveRedirectState) :
    ((rserver = none ∨ rport = none ∨
        (∃ rp, rport = some rp ∧ atoiStr rp ≤ 0) ∨ ivalue = none ∨
        (∃ iv, ivalue = some iv ∧ atoiStr iv < 5)) →
      redirector_update now maxRedirects rserver rport ivalue st = st) ∧
    (∀ srv rp iv, rserver = some srv → rport = some rp → ivalue = some iv →
      0 < atoiStr rp → 5 ≤ atoiStr iv →
      ((find_slave_host srv (atoiStr rp) st.redirectors = none →
          (st.redirectCount < maxRedirects →
            redirector_update now maxRedirects rserver rport ivalue st =
              { redirectors :=
                  ⟨srv, atoiStr rp, now + atoiStr iv⟩ :: st.redirectors,
                redirectCount := st.redirectCount + 1 }) ∧
          (maxRedirects ≤ st.redirectCount →
            redirector_update now maxRedirects rserver rport ivalue st = st)) ∧
        ((find_slave_host srv (atoiStr rp) st.redirectors).isSome →
          redirector_update now maxRedirects rserver rport ivalue st =
            { st with redirectors :=
                (touchRedirect srv (atoiStr rp) (now + atoiStr iv)
                  st.redirectors) }))) := by
  constructor
  · intro hbad
    rcases hbad with h | h | ⟨rp, hrp, hle⟩ | h | ⟨iv, hiv, hlt⟩
    · simp [redirector_update, h]
    · cases rserver with
      | none => rfl
      | some srv => simp [redirector_update, h]
    · cases rserver with
      | none => rfl
      | some srv => subst hrp; simp [redirector_update, hle]
    · cases rserver with
      | none => rfl
      | some srv =>
        cases rport with
        | none => rfl
        | some rp =>
          subst h
          simp only [redirector_update]
          split <;> rfl
    · cases rserver with
      | none => rfl
      | some srv =>
        cases rport with
        | none => rfl
        | some rp =>
          subst hiv
          simp only [redirector_update]
          split
          · rfl
          · simp [hlt]
  · intro srv rp iv hsrv hrp hiv hpos hge
    subst hsrv; subst hrp; subst hiv
    have hnle : ¬ atoiStr rp ≤ 0 := by omega
    have hnlt : ¬ atoiStr iv < 5 := by omega
    constructor
    · intro hfind
      constructor
      · intro hcnt
        have hiz : ¬ atoiStr iv = 0 := by omega
        simp [redirector_update, hnle, hnlt, hfind, hcnt, redirector_add, hiz]
      · intro hcnt
        have hncnt : ¬ st.redirectCount < maxRedirects := by omega
        simp [redirector_update, hnle, hnlt, hfind, hncnt]
    · intro hfind
      rcases Option.isSome_iff_exists.mp hfind with ⟨h, hh⟩
      simp [redirector_update, hnle, hnlt, hh]

/-- Witness for C10: concrete valid parameters (rserver "peer",
rport "8000", interval "30") against an empty state with limit 2 add the
host with next_update 130 at time 100. -/
theorem C10_redirector_update_witness :
    redirector_update 100 2 (some "peer") (some "8000") (some "30") ⟨[], 0⟩ =
      { redirectors := [⟨"peer", 8000, 130⟩], redirectCount := 1 } :=
  (((C10_redirector_update 100 2 (some "peer") (some "8000") (some "30")
      ⟨[], 0⟩).2 "peer" "8000" "30" rfl rfl rfl (by decide)
      (by decide)).1 rfl).1 (by decide)

/- ===================================================================
   Section: validate_mpeg (format_mp3.c:700-753).

   mpeg_complete_frames (mpeg.c, external collaborator) truncates the
   block to a frame boundary and returns the count of trailing
   unprocessed bytes; that return value and the truncated block length
   are the inputs here.
   =================================================================== -/

/-- The mp3_state fields validate_mpeg reads and writes. -/
structure Mp3SourceState where
  inlineInterval : Int
  offset : Int
  queueBlockSize : Nat
deriving DecidableEq

/-- Externally visible outcome of validate_mpeg. -/
structure ValidateResult where
  result : Int
  runningCleared : Bool
  newOffset : Int
  clientPos : Option Nat
  readCount : Option Int
  sideQueued : Bool
deriving DecidableEq

/-- validate_mpeg (format_mp3.c:700-753) given the mpeg_complete_frames
return value `unprocessed` and the truncated block length `len`. -/
def validate_mpeg (st : Mp3SourceState) (unprocessed : Int) (len : Nat) :
    ValidateResult :=
  if unprocessed < 0 ∨ unprocessed > 8000 then
    if unprocessed > 0 ∧ len ≠ 0 then
      { result := 0, runningCleared := false, newOffset := st.offset,
        clientPos := none, readCount := none, sideQueued := false }
    else
      { result := -1, runningCleared := true, newOffset := st.offset,
        clientPos := none, readCount := none, sideQueued := false }
  else if unprocessed > 0 then
    if 0 < st.inlineInterval then
      if st.inlineInterval ≤ st.offset then
        { result := if len ≠ 0 then 0 else -1, runningCleared := false,
          newOffset := st.offset, clientPos := some 0, readCount := none,
          sideQueued := true }
      else
        { result := if len ≠ 0 then 0 else -1, runningCleared := false,
          newOffset := st.offset - unprocessed,
          clientPos := some unprocessed.toNat,
          readCount := some unprocessed, sideQueued := false }
    else
      { result := if len ≠ 0 then 0 else -1, runningCleared := false,
        newOffset := st.offset, clientPos := some unprocessed.toNat,
        readCount := some unprocessed, sideQueued := false }
  else
    { result := if len ≠ 0 then 0 else -1, runningCleared := false,
      newOffset := st.offset, clientPos := some 0, readCount := none,
      sideQueued := false }

/-- C4 counterexample: with unprocessed = 8001 (greater than 8000) and a
nonempty frame-aligned block, validate_mpeg returns 0 and leaves
SOURCE_RUNNING set: the early `return 0` for `unprocessed > 0 &&
refbuf->len` bypasses the teardown the claim requires. -/
theorem C4_counterexample :
    (8001 : Int) > 8000 ∧
    (validate_mpeg ⟨0, 0, 1400⟩ 8001 1).runningCleared = false ∧
    (validate_mpeg ⟨0, 0, 1400⟩ 8001 1).result = 0 :=
  ⟨by decide, rfl, rfl⟩

/-- C4 (amended): validate_mpeg tears the source down (clears
SOURCE_RUNNING and returns -1 so the block is released) exactly when
mpeg_complete_frames reports a negative unprocessed count, or an
unprocessed count above 8000 while the truncated block is empty; an
unprocessed count above 8000 with a nonempty block is accepted as-is
(returns 0, source left running). -/
theorem C4_validate_mpeg_teardown (st : Mp3SourceState)
    (unprocessed : Int) (len : Nat) :
    ((validate_mpeg st unprocessed len).runningCleared = true ∧
      (validate_mpeg st unprocessed len).result = -1) ↔
    (unprocessed < 0 ∨ (unprocessed > 8000 ∧ len = 0)) := by
  unfold validate_mpeg
  split_ifs with h1 h2 h3 h4 <;> simp_all <;> omega

/- ===================================================================
   Section: open_relay_connection (slave.c:332-454).

   The per-attempt network behaviour (connect outcome, response parse,
   status and Location header) is the environment; each loop entry has a
   distinct value of `redirects`, so the environment is indexed by it.
   =================================================================== -/

/-- The (server, port, mount) target of one upstream attempt. -/
structure RelayTarget where
  server : List Char
  port : Int
  mount : List Char
deriving DecidableEq

/-- What one connection attempt observes from the network. -/
inductive UpstreamResponse
  | connectFail
  | headerFail
  | redirect (location : List Char)
  | httpError
  | ok
deriving DecidableEq

def httpSchemeChars : List Char := ['h', 't', 't', 'p', ':', '/', '/']

/-- The 302 Location rewrite in open_relay_connection (slave.c:397-419):
the scheme must be `http://` (else the loop breaks), the mount is the
text from the first '/' after the host (default "/"), the port is the
number after ':' when present (default 80), the server is the text
before the first ':' or '/'. -/
def parseRedirectLocation (loc : List Char) : Option RelayTarget :=
  if loc.take 7 = httpSchemeChars then
    let uri := loc.drop 7
    let mount :=
      match uri.findIdx? (fun c => c = '/') with
      | some i => uri.drop i
      | none => ['/']
    let len := (uri.takeWhile (fun c => ¬ (c = ':' ∨ c = '/'))).length
    let port := if uri.getD len ' ' = ':' then atoiChars (uri.drop (len + 1)) else 80
    some ⟨uri.take len, port, mount⟩
  else none

/-- Result of open_relay_connection: 0 with the final target, or -1; on
every failure path the loop has set relay->in_use (done at each loop
entry, slave.c:374) so `relay->in_use->skip = 1` fires (slave.c:452). -/
inductive OpenOutcome
  | success (redirectsFollowed : Nat) (finalTarget : RelayTarget)
  | failure (redirectsFollowed : Nat) (skipSet : Bool)
deriving DecidableEq

def redirectsFollowed : OpenOutcome → Nat
  | OpenOutcome.success r _ => r
  | OpenOutcome.failure r _ => r

/-- The `while (redirects < 10)` loop of open_relay_connection
(slave.c:359-443): connect, read the response; a 302 with an http://
Location rewrites the target and retries with redirects+1; any other
failure breaks; a clean response returns success. -/
def openRelayLoop (env : Nat → UpstreamResponse) (t : RelayTarget)
    (redirects : Nat) : OpenOutcome :=
  if redirects < 10 then
    match env redirects with
    | UpstreamResponse.connectFail => OpenOutcome.failure redirects true
    | UpstreamResponse.headerFail => OpenOutcome.failure redirects true
    | UpstreamResponse.redirect loc =>
      match parseRedirectLocation loc with
      | none => OpenOutcome.failure redirects true
      | some t2 => openRelayLoop env t2 (redirects + 1)
    | UpstreamResponse.httpError => OpenOutcome.failure redirects true
    | UpstreamResponse.ok => OpenOutcome.success redirects t
  else OpenOutcome.failure redirects true
termination_by 10 - redirects

/-- open_relay_connection (slave.c:332-454) entered with the configured
master as target and a fresh redirect count. -/
def open_relay_connection (env : Nat → UpstreamResponse)
    (t : RelayTarget) : OpenOutcome :=
  openRelayLoop env t 0

/-- An environment step that answers 302 with a followable Location. -/
def followableRedirect (r : UpstreamResponse) : Prop :=
  ∃ loc, r = UpstreamResponse.redirect loc ∧ (parseRedirectLocation loc).isSome

theorem openRelayLoop_redirects_le (env : Nat → UpstreamResponse) :
    ∀ (k : Nat) (t : RelayTarget) (redirects : Nat), 10 - redirects = k →
      redirects ≤ 10 → redirectsFollowed (openRelayLoop env t redirects) ≤ 10 := by
  intro k
  induction k with
  | zero =>
    intro t redirects hk hle
    have h10 : ¬ redirects < 10 := by omega
    rw [openRelayLoop, if_neg h10]
    simpa [redirectsFollowed] using hle
  | succ k ih =>
    intro t redirects hk hle
    have h10 : redirects < 10 := by omega
    rw [openRelayLoop, if_pos h10]
    cases henv : env redirects with
    | connectFail => simpa [redirectsFollowed] using hle
    | headerFail => simpa [redirectsFollowed] using hle
    | redirect loc =>
      cases hp : parseRedirectLocation loc with
      | none => simp only [hp]; simpa [redirectsFollowed] using hle
      | some t2 => simp only [hp]; exact ih t2 (redirects + 1) (by omega) (by omega)
    | httpError => simpa [redirectsFollowed] using hle
    | ok => simpa [redirectsFollowed] using hle

theorem openRelayLoop_all_redirect (env : Nat → UpstreamResponse)
    (hall : ∀ i, followableRedirect (env i)) :
    ∀ (k : Nat) (t : RelayTarget) (redirects : Nat), 10 - redirects = k →
      redirects ≤ 10 →
      openRelayLoop env t redirects = OpenOutcome.failure 10 true := by
  intro k
  induction k with
  | zero =>
    intro t redirects hk hle
    have h10 : ¬ redirects < 10 := by omega
    have hr : redirects = 10 := by omega
    rw [openRelayLoop, if_neg h10, hr]
  | succ k ih =>
    intro t redirects hk hle
    have h10 : redirects < 10 := by omega
    rw [openRelayLoop, if_pos h10]
    rcases hall redirects with ⟨loc, henv, hsome⟩
    rcases Option.isSome_iff_exists.mp hsome with ⟨t2, ht2⟩
    simp only [henv, ht2]
    exact ih t2 (redirects + 1) (by omega) (by omega)

/-- C5: every relay upstream open follows at most 10 redirects; an
environment that always answers 302 with an http:// Location makes the
attempt end after exactly 10 redirects as a failure with the in-use
master's skip flag set (returning -1), and a 302 whose Location does not
begin with http:// aborts the attempt at once the same way. -/
theorem C5_redirect_limit :
    (∀ (env : Nat → UpstreamResponse) (t : RelayTarget),
      redirectsFollowed (open_relay_connection env t) ≤ 10) ∧
    (∀ (env : Nat → UpstreamResponse) (t : RelayTarget),
      (∀ i, followableRedirect (env i)) →
      open_relay_connection env t = OpenOutcome.failure 10 true) ∧
    (∀ (env : Nat → UpstreamResponse) (t : RelayTarget) (loc : List Char),
      env 0 = UpstreamResponse.redirect loc →
      parseRedirectLocation loc = none →
      open_relay_connection env t = OpenOutcome.failure 0 true) := by
  refine ⟨?_, ?_, ?_⟩
  · intro env t
    exact openRelayLoop_redirects_le env 10 t 0 rfl (by omega)
  · intro env t hall
    exact openRelayLoop_all_redirect env hall 10 t 0 rfl (by omega)
  · intro env t loc henv hbad
    unfold open_relay_connection
    rw [openRelayLoop, if_pos (by omega : (0 : Nat) < 10)]
    simp only [henv, hbad]

/-- Witness for C5: a concrete environment always redirecting to
http://peer:9000/live drives a concrete attempt to failure after exactly
10 redirects with the skip flag set. -/
theorem C5_redirect_limit_witness :
    open_relay_connection
      (fun _ => UpstreamResponse.redirect
        ['h','t','t','p',':','/','/','p','e','e','r',':','9','0','0','0','/','l','i','v','e'])
      ⟨['m','1'], 8000, ['/','a']⟩ = OpenOutcome.failure 10 true :=
  C5_redirect_limit.2.1
    (fun _ => UpstreamResponse.redirect
      ['h','t','t','p',':','/','/','p','e','e','r',':','9','0','0','0','/','l','i','v','e'])
    ⟨['m','1'], 8000, ['/','a']⟩
    (fun _ => ⟨['h','t','t','p',':','/','/','p','e','e','r',':','9','0','0','0','/','l','i','v','e'],
      rfl, by decide⟩)

/- ===================================================================
   Section: relay diff (slave.c, relay_has_changed 603-630 and
   update_relay_set 637-685).
   =================================================================== -/

/-- The relay_server_master fields relay_has_changed compares. -/
structure RelayMaster where
  ip : String
  mount : String
  port : Int
deriving DecidableEq

/-- The relay_server fields the diff pass reads. -/
structure RelayConf where
  localmount : String
  masters : List RelayMaster
  mp3metadata : Int
  on_demand : Int
deriving DecidableEq

/-- The element-wise masters walk of relay_has_changed (slave.c:607-620):
compare mount, ip and port pairwise; any mismatch or length difference
fails the match. -/
def mastersMatch : List RelayMaster → List RelayMaster → Bool
  | [], [] => true
  | oldm :: olds, newm :: news =>
    (newm.mount == oldm.mount) && (newm.ip == oldm.ip) &&
      (newm.port == oldm.port) && mastersMatch olds news
  | _, _ => false

/-- relay_has_changed (slave.c:603-630): returns (restart needed,
updated old relay).  A masters or mp3metadata difference requires a
restart; an on_demand difference alone is written onto the old relay in
place and needs no restart. -/
def relay_has_changed (rNew rOld : RelayConf) : Bool × RelayConf :=
  if mastersMatch rOld.masters rNew.masters then
    if rNew.mp3metadata ≠ rOld.mp3metadata then (true, rOld)
    else if rNew.on_demand ≠ rOld.on_demand then
      (false, { rOld with on_demand := rNew.on_demand })
    else (false, rOld)
  else (true, rOld)

/-- A running relay entry as update_relay_set sees it: its current
configuration and the pending new_details slot. -/
structure RelayEntry where
  conf : RelayConf
  newDetails : Option RelayConf
deriving DecidableEq

/-- The inner search of update_relay_set (slave.c:649-673): unlink and
return the first entry whose localmount matches. -/
def extractRelay (mount : String) :
    List RelayEntry → Option (RelayEntry × List RelayEntry)
  | [] => none
  | e :: rest =>
    if e.conf.localmount = mount then some (e, rest)
    else
      match extractRelay mount rest with
      | none => none
      | some (f, rest2) => some (f, e :: rest2)

/-- update_relay_set (slave.c:637-685).  Walks the candidate list; a
candidate matching a current entry keeps that entry (installing
new_details and leaving it for the relay client when relay_has_changed
says restart), a candidate with no match is installed fresh.  Returns
(kept list, leftover current entries to shut down, number of installs);
the kept list is accumulated by prepending, as the C code does. -/
def update_relay_set (acc current : List RelayEntry) :
    List RelayConf → List RelayEntry × List RelayEntry × Nat
  | [] => (acc, current, 0)
  | u :: us =>
    match extractRelay u.localmount current with
    | some (e, rest) =>
      let rc := relay_has_changed u e.conf
      let e2 :=
        if rc.1 then { conf := e.conf, newDetails := some u }
        else { conf := rc.2, newDetails := e.newDetails }
      update_relay_set (e2 :: acc) rest us
    | none =>
      let r := update_relay_set ({ conf := u, newDetails := none } :: acc) current us
      (r.1, r.2.1, r.2.2 + 1)

theorem mastersMatch_refl (l : List RelayMaster) : mastersMatch l l = true := by
  induction l with
  | nil => rfl
  | cons m rest ih => simp [mastersMatch, ih]

theorem relay_has_changed_refl (c : RelayConf) :
    relay_has_changed c c = (false, c) := by
  simp [relay_has_changed, mastersMatch_refl]

theorem update_relay_set_self (cur : List RelayEntry) :
    ∀ acc, update_relay_set acc cur (cur.map (fun e => e.conf)) =
      (cur.reverse ++ acc, [], 0) := by
  induction cur with
  | nil => intro acc; rfl
  | cons e rest ih =>
    intro acc
    have hex : extractRelay e.conf.localmount (e :: rest) = some (e, rest) := by
      simp [extractRelay]
    simp only [List.map_cons, update_relay_set, hex, relay_has_changed_refl,
      Bool.false_eq_true, if_false]
    rw [ih ({ conf := e.conf, newDetails := e.newDetails } :: acc)]
    simp

/-- C6: the relay diff is restart-free on an unchanged relay:
relay_has_changed reports no restart whenever the two masters lists
match element-wise on mount, ip and port and mp3metadata agrees, with a
bare on_demand difference reconciled in place on the existing relay; and
running update_relay_set against a candidate set identical to the
current one keeps every entry unchanged, installs nothing and leaves no
new_details behind. -/
theorem C6_relay_diff_idempotent :
    (∀ rNew rOld : RelayConf,
      mastersMatch rOld.masters rNew.masters = true →
      rNew.mp3metadata = rOld.mp3metadata →
      relay_has_changed rNew rOld =
        (false, { rOld with on_demand := rNew.on_demand })) ∧
    (∀ cur : List RelayEntry,
      update_relay_set [] cur (cur.map (fun e => e.conf)) =
        (cur.reverse, [], 0)) := by
  constructor
  · intro rNew rOld hm hmp3
    by_cases hod : rNew.on_demand = rOld.on_demand
    · simp [relay_has_changed, hm, hmp3, hod]
    · simp [relay_has_changed, hm, hmp3, hod]
  · intro cur
    simpa using update_relay_set_self cur []

/-- Witness for C6: a concrete candidate differing from the running
relay only in on_demand is reconciled in place without a restart. -/
theorem C6_relay_diff_idempotent_witness :
    relay_has_changed ⟨"/a", [⟨"m1", "/s", 8000⟩], 1, 1⟩
      ⟨"/a", [⟨"m1", "/s", 8000⟩], 1, 0⟩ =
      (false, ⟨"/a", [⟨"m1", "/s", 8000⟩], 1, 1⟩) :=
  C6_relay_diff_idempotent.1 ⟨"/a", [⟨"m1", "/s", 8000⟩], 1, 1⟩
    ⟨"/a", [⟨"m1", "/s", 8000⟩], 1, 0⟩ (by decide) rfl

/- ===================================================================
   Section: format_mp3_create_client_data (format_mp3.c:890-981).

   The request headers the function reads, and the response headers and
   client flags it writes.  format_general_headers is an external
   collaborator; its failure path (return -1 before any of the headers
   below) is not modelled.
   =================================================================== -/

/-- The request data format_mp3_create_client_data inspects. -/
structure ListenerRequest where
  wantsFlv : Bool
  xFlashVersion : Option String
  userAgent : Option String
  iceblocks : Option String
  icyMetadata : Option String
deriving DecidableEq

/-- The headers appended by format_mp3_create_client_data and the flags
and interval it leaves on the client. -/
structure ClientHeaders where
  contentLengthHack : Bool
  expiresHdr : Bool
  pragmaNoCache : Bool
  iceBlocksHdr : Bool
  icyMetaint : Option Int
  wantsMetaFlag : Bool
  clientInterval : Int
deriving DecidableEq

/-- A CLIENT_WANTS_FLV client takes the flv_create_client_data special
case (format_mp3.c:907-910) and gets none of the headers below. -/
inductive CreateClientResult
  | flvDelegated
  | headers (h : ClientHeaders)
deriving DecidableEq

/-- strstr as a Bool: does the needle occur as a contiguous run of the
haystack. -/
def strstrChars (needle : List Char) : List Char → Bool
  | [] => needle.isEmpty
  | c :: rest => List.isPrefixOf needle (c :: rest) || strstrChars needle rest

/-- strstr(useragent, "MSIE") of format_mp3.c:930, with the NULL check. -/
def containsMSIE (ua : Option String) : Bool :=
  match ua with
  | none => false
  | some s => strstrChars ['M', 'S', 'I', 'E'] s.toList

/-- format_mp3_create_client_data (format_mp3.c:890-981) as a function
of the source's configured metadata interval and the request. -/
def format_mp3_create_client_data (srcInterval : Int)
    (req : ListenerRequest) : CreateClientResult :=
  if req.wantsFlv then CreateClientResult.flvDelegated
  else
    let clHack := req.xFlashVersion.isSome || containsMSIE req.userAgent
    if req.iceblocks.isSome then
      CreateClientResult.headers
        { contentLengthHack := clHack, expiresHdr := true,
          pragmaNoCache := true, iceBlocksHdr := true, icyMetaint := none,
          wantsMetaFlag := true, clientInterval := 0 }
    else
      match req.icyMetadata with
      | some m =>
        if atoiStr m ≠ 0 then
          let interval := if 0 ≤ srcInterval then srcInterval else 16000
          CreateClientResult.headers
            { contentLengthHack := clHack, expiresHdr := true,
              pragmaNoCache := true, iceBlocksHdr := false,
              icyMetaint := if interval ≠ 0 then some interval else none,
              wantsMetaFlag := false, clientInterval := interval }
        else
          CreateClientResult.headers
            { contentLengthHack := clHack, expiresHdr := true,
              pragmaNoCache := true, iceBlocksHdr := false,
              icyMetaint := none, wantsMetaFlag := false, clientInterval := 0 }
      | none =>
        CreateClientResult.headers
          { contentLengthHack := clHack, expiresHdr := true,
            pragmaNoCache := true, iceBlocksHdr := false, icyMetaint := none,
            wantsMetaFlag := false, clientInterval := 0 }

/-- Whether the result includes the Expires header. -/
def addsExpires : CreateClientResult → Bool
  | CreateClientResult.flvDelegated => false
  | CreateClientResult.headers h => h.expiresHdr

/-- The configured interval actually used: source interval when
non-negative, else the 16000 default (format_mp3.c:958-961). -/
def effIcyInterval (srcInterval : Int) : Int :=
  if 0 ≤ srcInterval then srcInterval else 16000

/-- C8 counterexample: a CLIENT_WANTS_FLV listener takes the
flv_create_client_data early return, so format_mp3_create_client_data
adds no Expires header for it, against the claim's "every listener
response". -/
theorem C8_counterexample :
    addsExpires
      (format_mp3_create_client_data 16000 ⟨true, none, none, none, none⟩) =
      false := rfl

/-- C8 (amended): for every listener that is not an FLV listener (FLV
clients are delegated to flv_create_client_data before any header is
written), format_mp3_create_client_data adds Expires and
Pragma: no-cache; it adds the Content-Length workaround exactly when the
request carries x-flash-version or a user agent containing MSIE; an
iceblocks request is answered with IceBlocks: 1.1 and iceblock framing
(CLIENT_WANTS_META); otherwise icy-metaint is emitted exactly for a
request whose icy-metadata value parses nonzero when the effective
interval (configured, defaulting to 16000) is nonzero. -/
theorem C8_client_headers (srcInterval : Int) (req : ListenerRequest)
    (hflv : req.wantsFlv = false) :
    format_mp3_create_client_data srcInterval req = CreateClientResult.headers
      { contentLengthHack := req.xFlashVersion.isSome || containsMSIE req.userAgent,
        expiresHdr := true,
        pragmaNoCache := true,
        iceBlocksHdr := req.iceblocks.isSome,
        icyMetaint :=
          if req.iceblocks.isSome then none
          else
            match req.icyMetadata with
            | some m =>
              if atoiStr m ≠ 0 ∧ effIcyInterval srcInterval ≠ 0
              then some (effIcyInterval srcInterval) else none
            | none => none,
        wantsMetaFlag := req.iceblocks.isSome,
        clientInterval :=
          if req.iceblocks.isSome then 0
          else
            match req.icyMetadata with
            | some m => if atoiStr m ≠ 0 then effIcyInterval srcInterval else 0
            | none => 0 } := by
  unfold format_mp3_create_client_data effIcyInterval
  rw [if_neg (by simp [hflv])]
  by_cases hib : req.iceblocks.isSome
  · simp [hib]
  · simp only [hib, if_false, Bool.false_eq_true]
    cases hm : req.icyMetadata with
    | none => simp
    | some m =>
      by_cases hz : atoiStr m ≠ 0
      · by_cases he : (if 0 ≤ srcInterval then srcInterval else 16000) ≠ 0
        · simp [hz, he]
        · simp [hz, he]
      · simp [hz]

/-- Witness for C8: a non-FLV request with x-flash-version and
icy-metadata: 1 against a source interval of 16000 receives Expires,
Pragma, the Content-Length workaround and icy-metaint:16000. -/
theorem C8_client_headers_witness :
    format_mp3_create_client_data 16000 ⟨false, some "9", none, none, some "1"⟩ =
      CreateClientResult.headers
        { contentLengthHack := true, expiresHdr := true, pragmaNoCache := true,
          iceBlocksHdr := false, icyMetaint := some 16000,
          wantsMetaFlag := false, clientInterval := 16000 } := by
  have h := C8_client_headers 16000 ⟨false, some "9", none, none, some "1"⟩ rfl
  simpa using h

/- ===================================================================
   Section: ICY listener write path (format_mp3.c,
   send_icy_metadata 432-513 and format_mp3_write_buf_to_client
   519-552).

   Per tick the engine supplies: the remaining bytes of the current
   block (refbuf->len - client->pos), whether the block's associated
   metadata differs from the listener's cache and its length, and how
   many bytes the non-blocking socket accepts.  since_meta_block,
   CLIENT_IN_METADATA and metadata_offset are the client fields; the
   delivered/inserts fields are ghost counters of payload bytes sent
   and metadata inserts completed.
   =================================================================== -/

structure IcyClient where
  since : Nat
  inMeta : Bool
  metaOffset : Nat
  assocLen : Nat
  delivered : Nat
  inserts : Nat
deriving DecidableEq

/-- The gathered send and bookkeeping of send_icy_metadata
(format_mp3.c:484-512): `metaRem` metadata bytes still owed and at most
`interval` audio bytes go out in one connection_bufs_send; if the whole
metadata lands, since_meta_block restarts at the audio byte count of
this send and CLIENT_IN_METADATA clears, else the metadata cursor
advances and CLIENT_IN_METADATA is set. -/
def icy_meta_send_core (I : Nat) (c : IcyClient)
    (metaRem assocLen2 avail accept : Nat) : IcyClient :=
  let blockLen := min avail I
  let sent := min accept (metaRem + blockLen)
  if metaRem ≤ sent then
    { since := sent - metaRem, inMeta := false, metaOffset := 0,
      assocLen := assocLen2,
      delivered := c.delivered + (sent - metaRem), inserts := c.inserts + 1 }
  else
    { c with inMeta := true, metaOffset := c.metaOffset + sent, assocLen := assocLen2 }

/-- send_icy_metadata (format_mp3.c:432-513).  Resuming a cut metadata
send (CLIENT_IN_METADATA, format_mp3.c:444-449) continues the cached
block from metadata_offset; fresh changed metadata is sent whole and
becomes the new cache (450-464); unchanged metadata becomes the single
zero byte (466-472). -/
def send_icy_metadata (I : Nat) (c : IcyClient) (avail : Nat)
    (changed : Bool) (newLen : Nat) (accept : Nat) : IcyClient :=
  icy_meta_send_core I c
    (if c.inMeta then c.assocLen - c.metaOffset
     else if changed then newLen else 1)
    (if c.inMeta then c.assocLen else if changed then newLen else c.assocLen)
    avail accept

/-- format_mp3_write_buf_to_client (format_mp3.c:519-552) for an ICY
listener with nonzero interval `I`: at the boundary
(since_meta_block = interval) delegate to send_icy_metadata; otherwise
send audio capped to the distance to the boundary and to 2900 bytes. -/
def format_mp3_write_buf_to_client (I : Nat) (c : IcyClient) (avail : Nat)
    (changed : Bool) (newLen : Nat) (accept : Nat) : IcyClient :=
  if I = c.since then send_icy_metadata I c avail changed newLen accept
  else
    let len := min (min avail (I - c.since)) 2900
    let sent := min accept len
    { c with since := c.since + sent, delivered := c.delivered + sent }

/-- One scheduler tick; metadata RefBufs (built blocks and the blank
singleton) are nonempty, hence newLen ≥ 1. -/
inductive IcyStep (I : Nat) : IcyClient → IcyClient → Prop
  | tick (c : IcyClient) (avail : Nat) (changed : Bool) (newLen : Nat)
      (accept : Nat) (hlen : 1 ≤ newLen) :
      IcyStep I c (format_mp3_write_buf_to_client I c avail changed newLen accept)

/-- Fresh listener state: mp3_client_data is calloc-zeroed
(format_mp3.c:892); the cache starts on the 17-byte blank metadata. -/
def icyInit : IcyClient := ⟨0, false, 0, 17, 0, 0⟩

inductive IcyReachable (I : Nat) : IcyClient → Prop
  | init : IcyReachable I icyInit
  | step {c c2 : IcyClient} : IcyReachable I c → IcyStep I c c2 →
      IcyReachable I c2

theorem icy_meta_send_core_inv (I : Nat) (c : IcyClient)
    (metaRem assocLen2 avail accept : Nat)
    (hsince : c.since = I) (hd : c.delivered = c.inserts * I + c.since) :
    (icy_meta_send_core I c metaRem assocLen2 avail accept).since ≤ I ∧
    ((icy_meta_send_core I c metaRem assocLen2 avail accept).inMeta = true →
      (icy_meta_send_core I c metaRem assocLen2 avail accept).since = I) ∧
    (icy_meta_send_core I c metaRem assocLen2 avail accept).delivered =
      (icy_meta_send_core I c metaRem assocLen2 avail accept).inserts * I +
        (icy_meta_send_core I c metaRem assocLen2 avail accept).since := by
  unfold icy_meta_send_core
  by_cases h1 : metaRem ≤ min accept (metaRem + min avail I)
  · rw [if_pos h1]
    dsimp only
    have hs1 : min accept (metaRem + min avail I) ≤ metaRem + min avail I :=
      Nat.min_le_right _ _
    have hs2 : min avail I ≤ I := Nat.min_le_right avail I
    refine ⟨?_, ?_, ?_⟩
    · omega
    · intro hm; cases hm
    · rw [hd, hsince]; ring
  · rw [if_neg h1]
    dsimp only
    exact ⟨le_of_eq hsince, fun _ => hsince, hd⟩

theorem icy_step_preserves (I : Nat) {c c2 : IcyClient}
    (hs : IcyStep I c c2)
    (hinv : c.since ≤ I ∧ (c.inMeta = true → c.since = I) ∧
      c.delivered = c.inserts * I + c.since) :
    c2.since ≤ I ∧ (c2.inMeta = true → c2.since = I) ∧
      c2.delivered = c2.inserts * I + c2.since := by
  obtain ⟨ha, hb, hd⟩ := hinv
  rcases hs with ⟨avail, changed, newLen, accept, hlen⟩
  unfold format_mp3_write_buf_to_client
  by_cases hI : I = c.since
  · rw [if_pos hI]
    exact icy_meta_send_core_inv I c _ _ avail accept hI.symm hd
  · rw [if_neg hI]
    dsimp only
    have hlt : c.since < I := lt_of_le_of_ne ha (fun hcc => hI hcc.symm)
    refine ⟨?_, ?_, ?_⟩
    · have h3 : min accept (min (min avail (I - c.since)) 2900) ≤
          min avail (I - c.since) :=
        le_trans (Nat.min_le_right _ _) (Nat.min_le_left _ _)
      have h2 : min avail (I - c.since) ≤ I - c.since := Nat.min_le_right _ _
      omega
    · intro hm
      exact absurd (hb hm) (fun hcc => hI hcc.symm)
    · rw [hd]
      ring

theorem icy_meta_send_core_inserts (I : Nat) (c : IcyClient)
    (metaRem assocLen2 avail accept : Nat) :
    (icy_meta_send_core I c metaRem assocLen2 avail accept).inserts =
      c.inserts + 1 ∨
    (icy_meta_send_core I c metaRem assocLen2 avail accept).inserts =
      c.inserts := by
  unfold icy_meta_send_core
  dsimp only
  split_ifs with h1
  · exact Or.inl rfl
  · exact Or.inr rfl

theorem icy_insert_only_at_boundary (I : Nat) {c c2 : IcyClient}
    (hs : IcyStep I c c2) (hne : c2.inserts ≠ c.inserts) :
    c.since = I ∧ c2.inserts = c.inserts + 1 := by
  rcases hs with ⟨avail, changed, newLen, accept, hlen⟩
  unfold format_mp3_write_buf_to_client at hne ⊢
  by_cases hI : I = c.since
  · rw [if_pos hI] at hne ⊢
    refine ⟨hI.symm, ?_⟩
    unfold send_icy_metadata at hne ⊢
    rcases icy_meta_send_core_inserts I c
        (if c.inMeta then c.assocLen - c.metaOffset
         else if changed then newLen else 1)
        (if c.inMeta then c.assocLen
         else if changed then newLen else c.assocLen) avail accept with h | h
    · exact h
    · exact absurd h hne
  · rw [if_neg hI] at hne
    dsimp only at hne
    exact absurd rfl hne

/-- C1: for an ICY listener with metadata interval I > 0, in every state
reachable by write ticks from the fresh listener, since_meta_block never
exceeds the interval (so at most I consecutive payload bytes separate
inserts), the delivered payload byte count always equals
inserts * I + since_meta_block, so away from the exact boundary the
number of completed metadata inserts is precisely ⌊delivered / I⌋; and
an insert completes only on a tick entered with since_meta_block equal
to the interval, one insert per such crossing, however the writes were
fragmented by `avail` and the socket. -/
theorem C1_icy_byte_exact_interval (I : Nat) (hpos : 0 < I) (c : IcyClient)
    (h : IcyReachable I c) :
    (c.since ≤ I ∧ c.delivered = c.inserts * I + c.since ∧
      (c.since < I → c.inserts = c.delivered / I)) ∧
    (∀ c2 : IcyClient, IcyStep I c c2 → c2.inserts ≠ c.inserts →
      c.since = I ∧ c2.inserts = c.inserts + 1) := by
  have hinv : c.since ≤ I ∧ (c.inMeta = true → c.since = I) ∧
      c.delivered = c.inserts * I + c.since := by
    induction h with
    | init =>
      refine ⟨Nat.zero_le I, ?_, ?_⟩
      · intro hm
        simp [icyInit] at hm
      · simp [icyInit]
    | step hr hstep ih => exact icy_step_preserves I hstep ih
  refine ⟨⟨hinv.1, hinv.2.2, ?_⟩, ?_⟩
  · intro hlt
    have h0 : c.since / I = 0 := Nat.div_eq_of_lt hlt
    rw [hinv.2.2, Nat.add_comm, Nat.add_mul_div_right _ _ hpos, h0,
      Nat.zero_add]
  · intro c2 hstep hne
    exact icy_insert_only_at_boundary I hstep hne

/-- Witness for C1 at interval 4: after a full-payload tick (4 bytes)
and a boundary tick that carries the one-byte unchanged-metadata insert
plus 4 more payload bytes, the reachable state satisfies the cadence
invariant: 8 bytes delivered, 1 insert, since_meta_block = 4 = 1*4+4-4. -/
theorem C1_icy_byte_exact_interval_witness :
    (format_mp3_write_buf_to_client 4
        (format_mp3_write_buf_to_client 4 icyInit 10 false 17 100)
        6 false 17 5).since ≤ 4 ∧
    (format_mp3_write_buf_to_client 4
        (format_mp3_write_buf_to_client 4 icyInit 10 false 17 100)
        6 false 17 5).delivered =
      (format_mp3_write_buf_to_client 4
          (format_mp3_write_buf_to_client 4 icyInit 10 false 17 100)
          6 false 17 5).inserts * 4 +
        (format_mp3_write_buf_to_client 4
            (format_mp3_write_buf_to_client 4 icyInit 10 false 17 100)
            6 false 17 5).since :=
  ⟨((C1_icy_byte_exact_interval 4 (by decide) _
      (IcyReachable.step
        (IcyReachable.step IcyReachable.init
          (IcyStep.tick icyInit 10 false 17 100 (by decide)))
        (IcyStep.tick _ 6 false 17 5 (by decide)))).1).1,
   ((C1_icy_byte_exact_interval 4 (by decide) _
      (IcyReachable.step
        (IcyReachable.step IcyReachable.init
          (IcyStep.tick icyInit 10 false 17 100 (by decide)))
        (IcyStep.tick _ 6 false 17 5 (by decide)))).1).2.1⟩
